import Mathlib

/-!
# TMP102 temperature driver over an abstract I2C transport

A shallow embedding of `src/code.cpp`: the abstract bus `I2CInterface`, the
stimulus transport `SimulatedI2C`, and the sensor driver `TMP102Driver`.

Conventions of the embedding.

* `uint8_t` is `U8 = Fin 256`; `int` (32-bit two's complement) and `int16_t`
  are integers of `Int`, every conversion and every bit operation being
  written out through the two's-complement bit pattern.
* `float` is IEEE-754 binary32.  A finite binary32 value is a rational, and an
  operation is the exact rational operation followed by `toFloat32`, the
  round-to-nearest, ties-to-even rounding onto the 24-bit significand grid.
* An object with internal state is passed explicitly: a transport is an
  `I2CInterface σ` together with a value of its state `σ`, and every call
  returns the state that follows it.
* A `uint8_t*` output buffer is a map from offsets to bytes; a `float&`
  output parameter is passed in and returned.
-/

/-! ## Machine integers -/

/-- The type `uint8_t`. -/
abbrev U8 := Fin 256

/-- Conversion of an integer value to `int16_t`: reduction modulo `2^16` into
`[-32768, 32767]`, the two's-complement narrowing (the identity on values that
fit). -/
def toInt16 (x : Int) : Int := (x + 32768) % 65536 - 32768

/-- Conversion of an integer value to `uint8_t` (reduction modulo `2^8`). -/
def toU8 (x : Int) : U8 := ⟨(x % 256).toNat, by omega⟩

/-- The 32-bit two's-complement bit pattern of an `int`. -/
def bits32 (x : Int) : Nat := (x % 4294967296).toNat

/-- The `int` whose 32-bit two's-complement bit pattern is the low 32 bits of `n`. -/
def ofBits32 (n : Nat) : Int := ((n : Int) + 2147483648) % 4294967296 - 2147483648

/-- The operator `&` on `int`. -/
def intAnd (x y : Int) : Int := ofBits32 (bits32 x &&& bits32 y)

/-- The operator `|` on `int`. -/
def intOr (x y : Int) : Int := ofBits32 (bits32 x ||| bits32 y)

/-- The operator `<<` on `int` (bits shifted out of the 32-bit word are lost). -/
def intShl (x : Int) (n : Nat) : Int := ofBits32 (bits32 x <<< n)

/-- The operator `>>` on `int` (arithmetic shift). -/
def intShr (x : Int) (n : Nat) : Int := x >>> n

/-! ## Binary32 arithmetic -/

/-- The type `float`: the finite binary32 values, as rationals. -/
abbrev CFloat := ℚ

/-- Rounding of a rational to the nearest integer, ties to the even one. -/
def roundTiesEven (y : ℚ) : ℤ :=
  let f := ⌊y⌋
  let d := y - f
  if d < 1/2 then f else if 1/2 < d then f + 1 else if f % 2 = 0 then f else f + 1

/-- The binary32 value nearest to `x` (ties to even): `x` is rounded to a
multiple of the unit in the last place of its binade, `2 ^ (e - 23)` with
`2 ^ e ≤ |x| < 2 ^ (e + 1)`, the exponent being held at `-126` in the subnormal
range.  Overflow to infinity (`|x| ≥ 2 ^ 128`) is outside the model. -/
def toFloat32 (x : ℚ) : CFloat :=
  if x = 0 then 0 else
    let e := max (Int.log 2 |x|) (-126)
    let ulp : ℚ := 2 ^ (e - 23)
    roundTiesEven (x / ulp) * ulp

/-- Conversion of an integer value to `float`. -/
def CFloat.ofInt (n : Int) : CFloat := toFloat32 (n : ℚ)

/-- The operator `*` on `float`. -/
def CFloat.mul (a b : CFloat) : CFloat := toFloat32 (a * b)

/-! ## The transport -/

/-- The abstract class `I2CInterface`: the two pure virtual methods of a
transport whose internal state has type `σ`.  `write` receives the bytes its
`const uint8_t*` argument points to; `read` receives the caller's buffer and
returns it as the call leaves it. -/
structure I2CInterface (σ : Type) where
  write : σ → (address : U8) → (reg : U8) → (data : List U8) → (length : Nat) → Bool × σ
  read : σ → (address : U8) → (reg : U8) → (data : Nat → U8) → (length : Nat) →
    Bool × (Nat → U8) × σ

/-- A value `std::uniform_int_distribution<>(-640, 2000)` can return. -/
abbrev DistValue := {v : Int // -640 ≤ v ∧ v ≤ 2000}

/-- The class `SimulatedI2C`.  Its members `gen` and `dist` are held as the
sequence of values the successive evaluations of `dist(gen)` return. -/
structure SimulatedI2C where
  draws : Nat → DistValue

/-- The method `SimulatedI2C::write`: every argument is ignored. -/
def SimulatedI2C.write (self : SimulatedI2C) (_address _reg : U8) (_data : List U8)
    (_length : Nat) : Bool × SimulatedI2C :=
  (true, self)

/-- The packing in `SimulatedI2C::read` (lines 36-40): the two bytes stored for
the drawn value `rawTemp`. -/
def SimulatedI2C.pack (rawTemp : Int) : U8 × U8 :=
  let rawTemp : Int := if rawTemp < 0 then toInt16 (intAnd rawTemp 0xFFF) else rawTemp
  (toU8 (intAnd (intShr rawTemp 4) 0xFF), toU8 (intAnd (intShl rawTemp 4) 0xF0))

/-- The method `SimulatedI2C::read`. -/
def SimulatedI2C.read (self : SimulatedI2C) (_address reg : U8) (data : Nat → U8)
    (length : Nat) : Bool × (Nat → U8) × SimulatedI2C :=
  if reg = 0x00 ∧ length = 2 then
    let rawTemp : Int := toInt16 (self.draws 0).val
    let self : SimulatedI2C := ⟨fun n => self.draws (n + 1)⟩
    let bytes := SimulatedI2C.pack rawTemp
    let data := Function.update data 0 bytes.1
    let data := Function.update data 1 bytes.2
    (true, data, self)
  else
    (false, data, self)

/-- The class `SimulatedI2C` as an implementation of `I2CInterface`. -/
def SimulatedI2C.interface : I2CInterface SimulatedI2C :=
  ⟨SimulatedI2C.write, SimulatedI2C.read⟩

/-! ## The driver -/

/-- The class `TMP102Driver`.  The member `i2c_` is a reference: the transport
and its state are passed to every method. -/
structure TMP102Driver where
  address_ : U8
deriving DecidableEq

/-- The method `TMP102Driver::initialize`. -/
def TMP102Driver.initialize {σ : Type} (i2c : I2CInterface σ) (self : TMP102Driver)
    (bus : σ) : Bool × σ :=
  let config : List U8 := [0x60, 0xA0]
  i2c.write bus self.address_ 0x01 config 2

/-- The constructor of `TMP102Driver`: the address is stored, then
`initialize()` runs and its result is discarded. -/
def TMP102Driver.new {σ : Type} (i2c : I2CInterface σ) (bus : σ) (address : U8) :
    TMP102Driver × σ :=
  let self : TMP102Driver := ⟨address⟩
  (self, ( TMP102Driver.initialize i2c self bus).2)

/-- The default argument `address = 0x48` of the constructor. -/
def TMP102Driver.defaultAddress : U8 := 0x48

/-- The constructor of `TMP102Driver` called without an address. -/
def TMP102Driver.newDefault {σ : Type} (i2c : I2CInterface σ) (bus : σ) :
    TMP102Driver × σ :=
  TMP102Driver.new i2c bus TMP102Driver.defaultAddress

/-- Lines 70-73 of `TMP102Driver::readTemperature`: the `int16_t raw`
reassembled from the two bytes and sign-extended. -/
def TMP102Driver.rawValue (data0 data1 : U8) : Int :=
  let raw : Int := toInt16 (intOr (intShl (data0.val : Int) 4) (intShr (data1.val : Int) 4))
  if intAnd raw 0x800 ≠ 0 then toInt16 (intOr raw 0xF000) else raw

/-- Lines 71-73 of `TMP102Driver::readTemperature`, on their own: the sign
extension applied to the `int16_t raw`. -/
def TMP102Driver.signExtend (raw : Int) : Int :=
  if intAnd raw 0x800 ≠ 0 then toInt16 (intOr raw 0xF000) else raw

/-- Lines 70-75 of `TMP102Driver::readTemperature`: the value assigned to
`temperature`, `raw * 0.0625f`. -/
def TMP102Driver.decode (data : Nat → U8) : CFloat :=
  CFloat.mul (CFloat.ofInt (TMP102Driver.rawValue (data 0) (data 1))) (toFloat32 0.0625)

/-- The method `TMP102Driver::readTemperature`.  `temperature` is the
caller's variable as it stands before the call; `data` is the indeterminate
initial content of the local array `data[2]`.  The result is the returned
boolean, the caller's variable after the call and the transport's state. -/
def TMP102Driver.readTemperature {σ : Type} (i2c : I2CInterface σ) (self : TMP102Driver)
    (bus : σ) (temperature : CFloat) (data : Nat → U8) : Bool × CFloat × σ :=
  let r := i2c.read bus self.address_ 0x00 data 2
  if r.1 = false then
    (false, temperature, r.2.2)
  else
    (true, TMP102Driver.decode r.2.1, r.2.2)

/-! ## Observation of the transport calls -/

/-- One call made on a transport, with the arguments it was made with. -/
inductive BusCall where
  | write (address reg : U8) (data : List U8) (length : Nat)
  | read (address reg : U8) (length : Nat)
deriving DecidableEq

/-- The transport `i2c` with a log: every call is forwarded unchanged and
appended to the list of calls made so far. -/
def recording {σ : Type} (i2c : I2CInterface σ) : I2CInterface (σ × List BusCall) where
  write := fun s address reg data length =>
    let r := i2c.write s.1 address reg data length
    (r.1, (r.2, s.2 ++ [BusCall.write address reg data length]))
  read := fun s address reg data length =>
    let r := i2c.read s.1 address reg data length
    (r.1, r.2.1, (r.2.2, s.2 ++ [BusCall.read address reg length]))

/-- A fixture transport: every write returns `ok`; every read returns `ok`
and, when `ok` holds, stores `byte0` and `byte1` at offsets 0 and 1. -/
def fixtureI2C (ok : Bool) (byte0 byte1 : U8) : I2CInterface Unit where
  write := fun s _ _ _ _ => (ok, s)
  read := fun s _ _ data _ =>
    if ok then (true, Function.update (Function.update data 0 byte0) 1 byte1, s)
    else (false, data, s)

/-! ## The specification's reference functions -/

/-- The function `signExtend12` of the specification: `r` if `r < 2048`,
`r - 4096` otherwise. -/
def signExtend12 (r : Int) : Int := if r < 2048 then r else r - 4096

/-- The specification's variant of the packing in `SimulatedI2C::read`: the
two bytes `((v >> 4) & 0xFF, (v << 4) & 0xF0)` computed from the `int16_t`
value `v` without the 12-bit masking step, `>>` being the arithmetic shift. -/
def SimulatedI2C.packUnmasked (v : Int) : U8 × U8 :=
  (toU8 (intAnd (intShr v 4) 0xFF), toU8 (intAnd (intShl v 4) 0xF0))

/-! ## The life of a driver and the program -/

/-- The address argument of a transport call. -/
def BusCall.address : BusCall → U8
  | BusCall.write address _ _ _ => address
  | BusCall.read address _ _ => address

/-- A method call made on a constructed driver: `initialize()`, or
`readTemperature(temperature)` with the content of the caller's variable and
of the local array before the call. -/
inductive DriverCall where
  | init
  | readTemp (temperature : CFloat) (data : Nat → U8)

/-- A sequence of method calls made on the driver `self`, in order; the
result is the state the transport is left in.  No method assigns `address_`:
the same `self` serves every call. -/
def TMP102Driver.calls {σ : Type} (i2c : I2CInterface σ) (self : TMP102Driver) :
    List DriverCall → σ → σ
  | [], bus => bus
  | DriverCall.init :: rest, bus =>
    TMP102Driver.calls i2c self rest ( TMP102Driver.initialize i2c self bus).2
  | DriverCall.readTemp temperature data :: rest, bus =>
    TMP102Driver.calls i2c self rest
      ( TMP102Driver.readTemperature i2c self bus temperature data).2.2

/-- The lifetime of a driver: its construction at `address`, then the method
calls `ops`. -/
def TMP102Driver.lifetime {σ : Type} (i2c : I2CInterface σ) (bus : σ) (address : U8)
    (ops : List DriverCall) : σ :=
  TMP102Driver.calls i2c ( TMP102Driver.new i2c bus address).1 ops
    ( TMP102Driver.new i2c bus address).2

/-- A line `main` prints: the banner, a reading, or the error line (the
timestamp is left out). -/
inductive ConsoleLine where
  | starting
  | temperature (temp : CFloat)
  | error
deriving DecidableEq

/-- The loop `while (true)` of `main`, one iteration for each element of
`junk`, the indeterminate content of `float temp` and of the driver's local
array at that iteration; the result is the lines printed. -/
def mainLoop (sensor : TMP102Driver) : SimulatedI2C → List (CFloat × (Nat → U8)) →
    List ConsoleLine
  | _, [] => []
  | i2c, (temp, data) :: rest =>
    let r := TMP102Driver.readTemperature SimulatedI2C.interface sensor i2c temp data
    (if r.1 = true then ConsoleLine.temperature r.2.1 else ConsoleLine.error)
      :: mainLoop sensor r.2.2 rest

/-- The function `main` (a bare `main` is reserved for the entry point of a
Lean program), run for `junk.length` iterations of its loop: `i2c` is the
simulator as its constructor seeds it. -/
def Program.main (i2c : SimulatedI2C) (junk : List (CFloat × (Nat → U8))) : List ConsoleLine :=
  let constructed := TMP102Driver.newDefault SimulatedI2C.interface i2c
  ConsoleLine.starting :: mainLoop constructed.1 constructed.2 junk

/-! ## Auxiliary facts: binary32 rounding -/

theorem roundTiesEven_intCast (k : ℤ) : roundTiesEven (k : ℚ) = k := by
  simp [roundTiesEven]

/-- A dyadic rational `n / 2 ^ j` whose numerator fits 24 bits, with `j` within
the subnormal exponent range, is a binary32 value: rounding leaves it as it is. -/
theorem toFloat32_exact (n : ℤ) (j : ℕ) (hj : j ≤ 149) (hn : |n| < 2 ^ 24) :
    toFloat32 ((n : ℚ) / 2 ^ j) = (n : ℚ) / 2 ^ j := by
  unfold toFloat32
  split_ifs with h0
  · exact h0.symm
  · have hpos : (0 : ℚ) < |(n : ℚ) / 2 ^ j| := abs_pos.mpr h0
    have hlt : |(n : ℚ) / 2 ^ j| < (2 : ℚ) ^ ((24 : ℤ) - j) := by
      rw [abs_div, abs_of_pos (by positivity : (0 : ℚ) < 2 ^ j),
        zpow_sub₀ (by norm_num), zpow_natCast]
      apply div_lt_div_of_pos_right _ (by positivity)
      have hc : ((|n| : ℤ) : ℚ) < ((2 ^ 24 : ℤ) : ℚ) := by exact_mod_cast hn
      have h2 : ((|n| : ℤ) : ℚ) = |(n : ℚ)| := by push_cast; rfl
      rw [h2] at hc
      norm_num at hc ⊢
      exact hc
    have hlog : Int.log 2 |(n : ℚ) / 2 ^ j| < (24 : ℤ) - j :=
      (Int.lt_zpow_iff_log_lt (by norm_num) hpos).mp (by exact_mod_cast hlt)
    simp only []
    set e : ℤ := max (Int.log 2 |(n : ℚ) / 2 ^ j|) (-126) with he
    have hle : e ≤ 23 - j := by
      rw [he]; apply max_le <;> omega
    obtain ⟨m, hm⟩ : ∃ m : ℕ, (m : ℤ) = 23 - j - e := ⟨(23 - j - e).toNat, by omega⟩
    have hq : (n : ℚ) / 2 ^ j / 2 ^ (e - 23) = ((n * 2 ^ m : ℤ) : ℚ) := by
      have hexp : e - 23 = -((m : ℤ) + j) := by omega
      rw [hexp, zpow_neg, div_inv_eq_mul, zpow_add₀ (by norm_num), zpow_natCast, zpow_natCast]
      push_cast
      field_simp
      ring
    rw [hq, roundTiesEven_intCast, ← hq]
    field_simp
    ring

/-- The conversion of an integer below `2 ^ 24` in magnitude to `float` is exact. -/
theorem CFloat.ofInt_exact (n : Int) (hn : |n| < 2 ^ 24) : CFloat.ofInt n = (n : ℚ) := by
  have h := toFloat32_exact n 0 (by norm_num) hn
  simpa [CFloat.ofInt] using h

/-- The literal `0.0625f` is the rational `1 / 16`. -/
theorem toFloat32_sixteenth : toFloat32 0.0625 = (1 : ℚ) / 16 := by
  have h := toFloat32_exact 1 4 (by norm_num) (by norm_num)
  norm_num at h ⊢
  exact h

/-- The product `raw * 0.0625f` is exact for every `raw` below `2 ^ 24` in magnitude. -/
theorem CFloat.mul_sixteenth_exact (n : Int) (hn : |n| < 2 ^ 24) :
    CFloat.mul (CFloat.ofInt n) (toFloat32 0.0625) = (n : ℚ) / 16 := by
  rw [CFloat.ofInt_exact n hn, toFloat32_sixteenth]
  have h := toFloat32_exact n 4 (by norm_num) hn
  norm_num at h
  unfold CFloat.mul
  rw [show (n : ℚ) * (1 / 16) = (n : ℚ) / 16 by ring]
  exact h

/-! ## Auxiliary facts: the integer decode -/

theorem intShr_natCast (n k : Nat) : intShr (n : Int) k = ((n / 2 ^ k : Nat) : Int) := by
  show ((n >>> k : Nat) : Int) = _
  rw [Nat.shiftRight_eq_div_pow]

set_option maxRecDepth 1000000 in
set_option maxHeartbeats 4000000 in
theorem rawValue_core : ∀ d0 : Fin 256, ∀ h : Fin 16,
    (if intAnd (toInt16 (intOr (intShl (d0.val : Int) 4) (h.val : Int))) 0x800 ≠ 0
      then toInt16 (intOr (toInt16 (intOr (intShl (d0.val : Int) 4) (h.val : Int))) 0xF000)
      else toInt16 (intOr (intShl (d0.val : Int) 4) (h.val : Int)))
    = signExtend12 ((d0.val : Int) * 16 + (h.val : Int)) := by decide

/-- The integer the driver decodes is the sign extension of the 12-bit field
`data0 * 16 + data1 / 16`. -/
theorem rawValue_eq (d0 d1 : U8) :
    TMP102Driver.rawValue d0 d1
      = signExtend12 ((d0.val : Int) * 16 + ((d1.val / 16 : Nat) : Int)) := by
  have h := rawValue_core d0 ⟨d1.val / 16, by omega⟩
  unfold TMP102Driver.rawValue
  rw [intShr_natCast]
  exact h

theorem rawValue_bounds (d0 d1 : U8) :
    -2048 ≤ TMP102Driver.rawValue d0 d1 ∧ TMP102Driver.rawValue d0 d1 ≤ 2047 := by
  rw [rawValue_eq]
  unfold signExtend12
  have h0 := d0.isLt
  have h1 := d1.isLt
  split_ifs <;> omega

/-- The decoded temperature is the decoded integer divided by 16, exactly. -/
theorem decode_eq (data : Nat → U8) :
    TMP102Driver.decode data = ((TMP102Driver.rawValue (data 0) (data 1) : Int) : ℚ) / 16 := by
  unfold TMP102Driver.decode
  apply CFloat.mul_sixteenth_exact
  have h := rawValue_bounds (data 0) (data 1)
  rw [abs_lt]
  constructor <;> omega

theorem readTemperature_of_ok {σ : Type} (i2c : I2CInterface σ) (self : TMP102Driver)
    (bus : σ) (temperature : CFloat) (data : Nat → U8)
    (hok : (i2c.read bus self.address_ 0x00 data 2).1 = true) :
    TMP102Driver.readTemperature i2c self bus temperature data
      = (true, TMP102Driver.decode (i2c.read bus self.address_ 0x00 data 2).2.1,
          (i2c.read bus self.address_ 0x00 data 2).2.2) := by
  simp [TMP102Driver.readTemperature, hok]

theorem readTemperature_of_fail {σ : Type} (i2c : I2CInterface σ) (self : TMP102Driver)
    (bus : σ) (temperature : CFloat) (data : Nat → U8)
    (hfail : (i2c.read bus self.address_ 0x00 data 2).1 = false) :
    TMP102Driver.readTemperature i2c self bus temperature data
      = (false, temperature, (i2c.read bus self.address_ 0x00 data 2).2.2) := by
  simp [TMP102Driver.readTemperature, hfail]

/-- The decoded temperature of two given bytes, `n` being the sign extension
of their 12-bit field. -/
theorem decode_bytes (data : Nat → U8) (b0 b1 : U8) (n : Int) (h0 : data 0 = b0)
    (h1 : data 1 = b1)
    (hn : signExtend12 ((b0.val : Int) * 16 + ((b1.val / 16 : Nat) : Int)) = n) :
    TMP102Driver.decode data = (n : ℚ) / 16 := by
  rw [decode_eq, rawValue_eq, h0, h1, hn]

set_option maxRecDepth 1000000 in
theorem pack12_core : ∀ a : Fin 256, ∀ c : Fin 16,
    (((a.val * 16 + c.val) <<< 4) >>> 8) = a.val ∧
      (((a.val * 16 + c.val) <<< 4) &&& 0xF0) = c.val * 16 := by decide

/-- The two-byte image of the specification, for a 12-bit pattern `r`: the
high byte is `r / 16`, the low byte `(r % 16) * 16`. -/
theorem pack12_unpack (r : Nat) (hr : r < 4096) :
    ((r <<< 4) >>> 8) = r / 16 ∧ ((r <<< 4) &&& 0xF0) = (r % 16) * 16 := by
  have h := pack12_core ⟨r / 16, by omega⟩ ⟨r % 16, by omega⟩
  have e : r / 16 * 16 + r % 16 = r := by omega
  simp only [e] at h
  exact h

/-! ## The claims -/

/-- C1. Round trip: for every 12-bit pattern `r` in `[0, 4095]`, when the
transport read succeeds and leaves the two-byte image `byte0 = (r<<4)>>8`,
`byte1 = (r<<4) & 0xF0` in the buffer, `readTemperature` returns `true` with
the temperature exactly `signExtend12(r) * 0.0625`. -/
theorem C1_roundtrip {σ : Type} (i2c : I2CInterface σ) (self : TMP102Driver) (bus : σ)
    (temperature : CFloat) (data : Nat → U8) (r : Nat) (hr : r < 4096)
    (hok : (i2c.read bus self.address_ 0x00 data 2).1 = true)
    (h0 : ((i2c.read bus self.address_ 0x00 data 2).2.1 0).val = (r <<< 4) >>> 8)
    (h1 : ((i2c.read bus self.address_ 0x00 data 2).2.1 1).val = (r <<< 4) &&& 0xF0) :
    TMP102Driver.readTemperature i2c self bus temperature data
      = (true, ((signExtend12 (r : Int) : Int) : ℚ) * 0.0625,
          (i2c.read bus self.address_ 0x00 data 2).2.2) := by
  rw [readTemperature_of_ok i2c self bus temperature data hok, decode_eq, rawValue_eq, h0, h1]
  obtain ⟨e0, e1⟩ := pack12_unpack r hr
  rw [e0, e1]
  have e : ((r / 16 : Nat) : Int) * 16 + (((r % 16 * 16) / 16 : Nat) : Int) = (r : Int) := by
    omega
  rw [e]
  congr 2
  norm_num
  ring

/-- C1, at the pattern `r = 0x800` delivered by a fixture transport: the
reading is `signExtend12(0x800) * 0.0625`. -/
theorem C1_roundtrip_witness :
    TMP102Driver.readTemperature (fixtureI2C true 0x80 0x00) ⟨0x48⟩ () 0 (fun _ => 0)
      = (true, ((signExtend12 ((0x800 : Nat) : Int) : Int) : ℚ) * 0.0625, ()) :=
  C1_roundtrip (fixtureI2C true 0x80 0x00) ⟨0x48⟩ () 0 (fun _ => 0) 0x800
    (by decide) rfl (by decide) (by decide)

/-- C2. Transport failure propagation: when the transport read returns
`false`, `readTemperature` returns `false` and the caller's temperature
variable is left as it was before the call. -/
theorem C2_read_failure_propagates {σ : Type} (i2c : I2CInterface σ) (self : TMP102Driver)
    (bus : σ) (temperature : CFloat) (data : Nat → U8)
    (hfail : (i2c.read bus self.address_ 0x00 data 2).1 = false) :
    ( TMP102Driver.readTemperature i2c self bus temperature data).1 = false ∧
      ( TMP102Driver.readTemperature i2c self bus temperature data).2.1 = temperature := by
  rw [readTemperature_of_fail i2c self bus temperature data hfail]
  exact ⟨rfl, rfl⟩

/-- C2, at a fixture transport whose read fails: the result is `false` and
the caller's value `7` is still there. -/
theorem C2_read_failure_propagates_witness :
    ( TMP102Driver.readTemperature (fixtureI2C false 0x19 0x00) ⟨0x48⟩ () 7 (fun _ => 0)).1
        = false ∧
      ( TMP102Driver.readTemperature (fixtureI2C false 0x19 0x00) ⟨0x48⟩ () 7 (fun _ => 0)).2.1
        = 7 :=
  C2_read_failure_propagates (fixtureI2C false 0x19 0x00) ⟨0x48⟩ () 7 (fun _ => 0) rfl

/-- C3. Initialization write: over any transport, `initialize` is the single
call `write(address_, 0x01, {0x60, 0xA0}, 2)` and returns what that call
returns; on the recording transport the log grows by exactly that one write
(and by no read), and the returned boolean is the one the write returned. -/
theorem C3_initialize_single_write {σ : Type} (i2c : I2CInterface σ) (self : TMP102Driver)
    (bus : σ) (log : List BusCall) :
    TMP102Driver.initialize i2c self bus = i2c.write bus self.address_ 0x01 [0x60, 0xA0] 2 ∧
      TMP102Driver.initialize (recording i2c) self (bus, log)
        = ((i2c.write bus self.address_ 0x01 [0x60, 0xA0] 2).1,
            ((i2c.write bus self.address_ 0x01 [0x60, 0xA0] 2).2,
              log ++ [BusCall.write self.address_ 0x01 [0x60, 0xA0] 2])) :=
  ⟨rfl, rfl⟩

/-- C4. Sign boundary: the images of the raw values `0x7FF`, `0x800`, `0xFFF`
and `0x000` are the byte pairs `(0x7F, 0xF0)`, `(0x80, 0x00)`, `(0xFF, 0xF0)`
and `(0x00, 0x00)`, and a successful read that leaves such a pair in the
buffer is decoded to `127.9375`, `-128.0`, `-0.0625` and `0.0`. -/
theorem C4_sign_boundary {σ : Type} (i2c : I2CInterface σ) (self : TMP102Driver) (bus : σ)
    (temperature : CFloat) (data : Nat → U8)
    (hok : (i2c.read bus self.address_ 0x00 data 2).1 = true) :
    (((0x7FF <<< 4) >>> 8 = 0x7F ∧ (0x7FF <<< 4) &&& 0xF0 = 0xF0) ∧
      ((0x800 <<< 4) >>> 8 = 0x80 ∧ (0x800 <<< 4) &&& 0xF0 = 0x00) ∧
      ((0xFFF <<< 4) >>> 8 = 0xFF ∧ (0xFFF <<< 4) &&& 0xF0 = 0xF0) ∧
      ((0x000 <<< 4) >>> 8 = 0x00 ∧ (0x000 <<< 4) &&& 0xF0 = 0x00)) ∧
    ((i2c.read bus self.address_ 0x00 data 2).2.1 0 = 0x7F →
      (i2c.read bus self.address_ 0x00 data 2).2.1 1 = 0xF0 →
      ( TMP102Driver.readTemperature i2c self bus temperature data).1 = true ∧
      ( TMP102Driver.readTemperature i2c self bus temperature data).2.1 = 127.9375) ∧
    ((i2c.read bus self.address_ 0x00 data 2).2.1 0 = 0x80 →
      (i2c.read bus self.address_ 0x00 data 2).2.1 1 = 0x00 →
      ( TMP102Driver.readTemperature i2c self bus temperature data).1 = true ∧
      ( TMP102Driver.readTemperature i2c self bus temperature data).2.1 = -128.0) ∧
    ((i2c.read bus self.address_ 0x00 data 2).2.1 0 = 0xFF →
      (i2c.read bus self.address_ 0x00 data 2).2.1 1 = 0xF0 →
      ( TMP102Driver.readTemperature i2c self bus temperature data).1 = true ∧
      ( TMP102Driver.readTemperature i2c self bus temperature data).2.1 = -0.0625) ∧
    ((i2c.read bus self.address_ 0x00 data 2).2.1 0 = 0x00 →
      (i2c.read bus self.address_ 0x00 data 2).2.1 1 = 0x00 →
      ( TMP102Driver.readTemperature i2c self bus temperature data).1 = true ∧
      ( TMP102Driver.readTemperature i2c self bus temperature data).2.1 = 0.0) := by
  rw [readTemperature_of_ok i2c self bus temperature data hok]
  refine ⟨by decide, ?_, ?_, ?_, ?_⟩
  · intro h0 h1
    refine ⟨rfl, ?_⟩
    show TMP102Driver.decode _ = _
    rw [decode_bytes _ _ _ 2047 h0 h1 (by decide)]
    norm_num
  · intro h0 h1
    refine ⟨rfl, ?_⟩
    show TMP102Driver.decode _ = _
    rw [decode_bytes _ _ _ (-2048) h0 h1 (by decide)]
    norm_num
  · intro h0 h1
    refine ⟨rfl, ?_⟩
    show TMP102Driver.decode _ = _
    rw [decode_bytes _ _ _ (-1) h0 h1 (by decide)]
    norm_num
  · intro h0 h1
    refine ⟨rfl, ?_⟩
    show TMP102Driver.decode _ = _
    rw [decode_bytes _ _ _ 0 h0 h1 (by decide)]
    norm_num

/-- C4, at the four fixture transports that deliver the four byte pairs. -/
theorem C4_sign_boundary_witness :
    ( TMP102Driver.readTemperature (fixtureI2C true 0x7F 0xF0) ⟨0x48⟩ () 0 (fun _ => 0)).2.1
        = 127.9375 ∧
    ( TMP102Driver.readTemperature (fixtureI2C true 0x80 0x00) ⟨0x48⟩ () 0 (fun _ => 0)).2.1
        = -128.0 ∧
    ( TMP102Driver.readTemperature (fixtureI2C true 0xFF 0xF0) ⟨0x48⟩ () 0 (fun _ => 0)).2.1
        = -0.0625 ∧
    ( TMP102Driver.readTemperature (fixtureI2C true 0x00 0x00) ⟨0x48⟩ () 0 (fun _ => 0)).2.1
        = 0.0 :=
  ⟨((C4_sign_boundary (fixtureI2C true 0x7F 0xF0) ⟨0x48⟩ () 0 (fun _ => 0) rfl).2.1
      rfl rfl).2,
    ((C4_sign_boundary (fixtureI2C true 0x80 0x00) ⟨0x48⟩ () 0 (fun _ => 0) rfl).2.2.1
      rfl rfl).2,
    ((C4_sign_boundary (fixtureI2C true 0xFF 0xF0) ⟨0x48⟩ () 0 (fun _ => 0) rfl).2.2.2.1
      rfl rfl).2,
    ((C4_sign_boundary (fixtureI2C true 0x00 0x00) ⟨0x48⟩ () 0 (fun _ => 0) rfl).2.2.2.2
      rfl rfl).2⟩

/-- C5. Known hardware example: the raw value `0x190` (400) packs to
`byte0 = 0x19`, `byte1 = 0x00`, and `readTemperature` on a transport whose
read succeeds with those two bytes returns `true` with temperature `25.0`. -/
theorem C5_hardware_example {σ : Type} (i2c : I2CInterface σ) (self : TMP102Driver) (bus : σ)
    (temperature : CFloat) (data : Nat → U8)
    (hok : (i2c.read bus self.address_ 0x00 data 2).1 = true)
    (h0 : (i2c.read bus self.address_ 0x00 data 2).2.1 0 = 0x19)
    (h1 : (i2c.read bus self.address_ 0x00 data 2).2.1 1 = 0x00) :
    ((0x190 = 400 ∧ (0x190 <<< 4) >>> 8 = 0x19 ∧ (0x190 <<< 4) &&& 0xF0 = 0x00) ∧
      TMP102Driver.readTemperature i2c self bus temperature data
        = (true, 25.0, (i2c.read bus self.address_ 0x00 data 2).2.2)) := by
  rw [readTemperature_of_ok i2c self bus temperature data hok,
    decode_bytes _ _ _ 400 h0 h1 (by decide)]
  refine ⟨by decide, ?_⟩
  congr 2
  norm_num

/-- C5, at the fixture transport that delivers the bytes `0x19`, `0x00`. -/
theorem C5_hardware_example_witness :
    TMP102Driver.readTemperature (fixtureI2C true 0x19 0x00) ⟨0x48⟩ () 0 (fun _ => 0)
      = (true, 25.0, ()) :=
  (C5_hardware_example (fixtureI2C true 0x19 0x00) ⟨0x48⟩ () 0 (fun _ => 0) rfl rfl rfl).2

/-- C6. Decoding never fails on its own: `readTemperature` returns `true`
exactly when the transport read returned `true`; after a successful read it
returns `true` with the temperature decoded from the two bytes delivered,
whatever they are (no range validation); and the bytes `0x80`, `0x00`, which
decode to `-128.0`, below the nominal `-40`, are returned as a success. -/
theorem C6_decode_never_fails {σ : Type} (i2c : I2CInterface σ) (self : TMP102Driver)
    (bus : σ) (temperature : CFloat) (data : Nat → U8) :
    (( TMP102Driver.readTemperature i2c self bus temperature data).1 = true ↔
      (i2c.read bus self.address_ 0x00 data 2).1 = true) ∧
    (∀ b0 b1 : U8, (i2c.read bus self.address_ 0x00 data 2).1 = true →
      (i2c.read bus self.address_ 0x00 data 2).2.1 0 = b0 →
      (i2c.read bus self.address_ 0x00 data 2).2.1 1 = b1 →
      TMP102Driver.readTemperature i2c self bus temperature data
        = (true, ((TMP102Driver.rawValue b0 b1 : Int) : ℚ) / 16,
            (i2c.read bus self.address_ 0x00 data 2).2.2)) ∧
    ((i2c.read bus self.address_ 0x00 data 2).1 = true →
      (i2c.read bus self.address_ 0x00 data 2).2.1 0 = 0x80 →
      (i2c.read bus self.address_ 0x00 data 2).2.1 1 = 0x00 →
      ( TMP102Driver.readTemperature i2c self bus temperature data).1 = true ∧
      ( TMP102Driver.readTemperature i2c self bus temperature data).2.1 = -128.0 ∧
      ( TMP102Driver.readTemperature i2c self bus temperature data).2.1 < -40) := by
  refine ⟨?_, ?_, ?_⟩
  · cases hr : (i2c.read bus self.address_ 0x00 data 2).1
    · rw [readTemperature_of_fail i2c self bus temperature data hr]
    · rw [readTemperature_of_ok i2c self bus temperature data hr]
  · intro b0 b1 hok h0 h1
    rw [readTemperature_of_ok i2c self bus temperature data hok, decode_eq, h0, h1]
  · intro hok h0 h1
    rw [readTemperature_of_ok i2c self bus temperature data hok]
    have hd : TMP102Driver.decode (i2c.read bus self.address_ 0x00 data 2).2.1 = -128.0 := by
      rw [decode_bytes _ _ _ (-2048) h0 h1 (by decide)]
      norm_num
    refine ⟨rfl, hd, ?_⟩
    show TMP102Driver.decode _ < _
    rw [hd]
    norm_num

/-- C6, at the fixture transport that delivers `0x80`, `0x00`: the call
succeeds with `-128.0`, below `-40`. -/
theorem C6_decode_never_fails_witness :
    ( TMP102Driver.readTemperature (fixtureI2C true 0x80 0x00) ⟨0x48⟩ () 0 (fun _ => 0)).1
        = true ∧
    ( TMP102Driver.readTemperature (fixtureI2C true 0x80 0x00) ⟨0x48⟩ () 0 (fun _ => 0)).2.1
        = -128.0 ∧
    ( TMP102Driver.readTemperature (fixtureI2C true 0x80 0x00) ⟨0x48⟩ () 0 (fun _ => 0)).2.1
        < -40 :=
  (C6_decode_never_fails (fixtureI2C true 0x80 0x00) ⟨0x48⟩ () 0 (fun _ => 0)).2.2 rfl rfl rfl

/-- C7. Decode is pure: two calls of `readTemperature`, on any two drivers
over any two transports in any states, with any earlier content of the
temperature variable and of the local buffer, whose reads both succeed and
deliver the same two bytes, produce the same temperature. -/
theorem C7_decode_pure {σ τ : Type} (i2c₁ : I2CInterface σ) (i2c₂ : I2CInterface τ)
    (self₁ self₂ : TMP102Driver) (bus₁ : σ) (bus₂ : τ) (temperature₁ temperature₂ : CFloat)
    (data₁ data₂ : Nat → U8)
    (hok₁ : (i2c₁.read bus₁ self₁.address_ 0x00 data₁ 2).1 = true)
    (hok₂ : (i2c₂.read bus₂ self₂.address_ 0x00 data₂ 2).1 = true)
    (h0 : (i2c₁.read bus₁ self₁.address_ 0x00 data₁ 2).2.1 0
      = (i2c₂.read bus₂ self₂.address_ 0x00 data₂ 2).2.1 0)
    (h1 : (i2c₁.read bus₁ self₁.address_ 0x00 data₁ 2).2.1 1
      = (i2c₂.read bus₂ self₂.address_ 0x00 data₂ 2).2.1 1) :
    ( TMP102Driver.readTemperature i2c₁ self₁ bus₁ temperature₁ data₁).2.1
      = ( TMP102Driver.readTemperature i2c₂ self₂ bus₂ temperature₂ data₂).2.1 := by
  rw [readTemperature_of_ok i2c₁ self₁ bus₁ temperature₁ data₁ hok₁,
    readTemperature_of_ok i2c₂ self₂ bus₂ temperature₂ data₂ hok₂]
  show TMP102Driver.decode _ = TMP102Driver.decode _
  unfold TMP102Driver.decode
  rw [h0, h1]

/-- C7, at two different drivers: address `0x48` over a bare fixture, and
address `0x49` over a recording fixture that has served a call before, with
different earlier temperatures and buffers; both read `0x19`, `0x00`. -/
theorem C7_decode_pure_witness :
    ( TMP102Driver.readTemperature (fixtureI2C true 0x19 0x00) ⟨0x48⟩ () 0 (fun _ => 0)).2.1
      = ( TMP102Driver.readTemperature (recording (fixtureI2C true 0x19 0x00)) ⟨0x49⟩
          ((), [BusCall.read 0x49 0x00 2]) 7 (fun _ => 0xFF)).2.1 :=
  C7_decode_pure (fixtureI2C true 0x19 0x00) (recording (fixtureI2C true 0x19 0x00))
    ⟨0x48⟩ ⟨0x49⟩ () ((), [BusCall.read 0x49 0x00 2]) 0 7 (fun _ => 0) (fun _ => 0xFF)
    rfl rfl rfl rfl

/-- C8. One call of `readTemperature` makes exactly one transport call, the
read `read(address_, 0x00, data, 2)`, whether it succeeds or fails: on the
recording transport the log grows by exactly that one read (no write, no
second read), the underlying transport is left in the state that single read
leaves it in, and the boolean and the temperature are those of the
unobserved run. -/
theorem C8_single_read {σ : Type} (i2c : I2CInterface σ) (self : TMP102Driver) (bus : σ)
    (log : List BusCall) (temperature : CFloat) (data : Nat → U8) :
    ( TMP102Driver.readTemperature (recording i2c) self (bus, log) temperature data).2.2
        = ((i2c.read bus self.address_ 0x00 data 2).2.2,
            log ++ [BusCall.read self.address_ 0x00 2]) ∧
      ( TMP102Driver.readTemperature (recording i2c) self (bus, log) temperature data).1
        = ( TMP102Driver.readTemperature i2c self bus temperature data).1 ∧
      ( TMP102Driver.readTemperature (recording i2c) self (bus, log) temperature data).2.1
        = ( TMP102Driver.readTemperature i2c self bus temperature data).2.1 := by
  cases hr : (i2c.read bus self.address_ 0x00 data 2).1
  · have hrec : ((recording i2c).read (bus, log) self.address_ 0x00 data 2).1 = false := hr
    rw [readTemperature_of_fail (recording i2c) self (bus, log) temperature data hrec,
      readTemperature_of_fail i2c self bus temperature data hr]
    exact ⟨rfl, rfl, rfl⟩
  · have hrec : ((recording i2c).read (bus, log) self.address_ 0x00 data 2).1 = true := hr
    rw [readTemperature_of_ok (recording i2c) self (bus, log) temperature data hrec,
      readTemperature_of_ok i2c self bus temperature data hr]
    exact ⟨rfl, rfl, rfl⟩

/-- C9. `SimulatedI2C::read` returns `true` exactly when `reg == 0x00` and
`length == 2`, and the device address has no influence on the call; when it
returns `true` the bytes at offsets 0 and 1 of the buffer are the two packed
bytes of the value drawn and the rest of the buffer is as before; when it
returns `false` the buffer is as before. -/
theorem C9_simulated_read (self : SimulatedI2C) (address reg : U8) (data : Nat → U8)
    (length : Nat) :
    ((SimulatedI2C.read self address reg data length).1 = true ↔
      (reg = 0x00 ∧ length = 2)) ∧
    (∀ other : U8, SimulatedI2C.read self other reg data length
      = SimulatedI2C.read self address reg data length) ∧
    ((SimulatedI2C.read self address reg data length).1 = true →
      (SimulatedI2C.read self address reg data length).2.1 0
        = (SimulatedI2C.pack (toInt16 (self.draws 0).val)).1 ∧
      (SimulatedI2C.read self address reg data length).2.1 1
        = (SimulatedI2C.pack (toInt16 (self.draws 0).val)).2 ∧
      ∀ k, 2 ≤ k → (SimulatedI2C.read self address reg data length).2.1 k = data k) ∧
    ((SimulatedI2C.read self address reg data length).1 = false →
      (SimulatedI2C.read self address reg data length).2.1 = data) := by
  unfold SimulatedI2C.read
  by_cases h : reg = 0x00 ∧ length = 2
  · rw [if_pos h]
    refine ⟨⟨fun _ => h, fun _ => rfl⟩, fun _ => rfl, fun _ => ⟨?_, ?_, ?_⟩, ?_⟩
    · simp [Function.update]
    · simp [Function.update]
    · intro k hk
      have h0 : k ≠ 0 := by omega
      have h1 : k ≠ 1 := by omega
      simp [Function.update, h0, h1]
    · intro hf
      simp at hf
  · rw [if_neg h]
    refine ⟨⟨fun hf => ?_, fun hf => absurd hf h⟩, fun _ => rfl, fun hf => ?_, fun _ => rfl⟩
    · simp at hf
    · simp at hf

/-- C9, at a simulator whose next draw is 400, read at register `0x00` with
length 2: the call succeeds and stores the bytes `0x19`, `0x00`. -/
theorem C9_simulated_read_witness :
    (SimulatedI2C.read ⟨fun _ => ⟨400, by decide⟩⟩ 0x48 0x00 (fun _ => 0xFF) 2).2.1 0
        = (SimulatedI2C.pack (toInt16 400)).1 ∧
    (SimulatedI2C.read ⟨fun _ => ⟨400, by decide⟩⟩ 0x48 0x00 (fun _ => 0xFF) 2).2.1 1
        = (SimulatedI2C.pack (toInt16 400)).2 ∧
    ∀ k, 2 ≤ k →
      (SimulatedI2C.read ⟨fun _ => ⟨400, by decide⟩⟩ 0x48 0x00 (fun _ => 0xFF) 2).2.1 k
        = (fun _ => 0xFF) k :=
  (C9_simulated_read ⟨fun _ => ⟨400, by decide⟩⟩ 0x48 0x00 (fun _ => 0xFF) 2).2.2.1 rfl

/-- C10. Construction initializes exactly once: over the recording transport
the constructor adds to the log exactly one call, the write of `{0x60, 0xA0}`
with length 2 to register `0x01` at the address given (at `0x48` when none is
given), and no read; and the driver is constructed with that address whatever
the write returned. -/
theorem C10_constructor_initializes_once {σ : Type} (i2c : I2CInterface σ) (bus : σ)
    (log : List BusCall) (address : U8) :
    TMP102Driver.new (recording i2c) (bus, log) address
        = (⟨address⟩, ((i2c.write bus address 0x01 [0x60, 0xA0] 2).2,
            log ++ [BusCall.write address 0x01 [0x60, 0xA0] 2])) ∧
      TMP102Driver.newDefault (recording i2c) (bus, log)
        = (⟨0x48⟩, ((i2c.write bus 0x48 0x01 [0x60, 0xA0] 2).2,
            log ++ [BusCall.write 0x48 0x01 [0x60, 0xA0] 2])) ∧
      ( TMP102Driver.new i2c bus address).1 = ⟨address⟩ ∧
      (∀ ok : Bool, ( TMP102Driver.initialize (fixtureI2C ok 0 0) ⟨address⟩ ()).1 = ok ∧
        ( TMP102Driver.new (fixtureI2C ok 0 0) () address).1 = ⟨address⟩) :=
  ⟨rfl, rfl, rfl, fun _ => ⟨rfl, rfl⟩⟩

/-! ## Auxiliary facts: the bit operations as arithmetic -/

theorem bits32_emod_16 (x : Int) : ((bits32 x : Nat) : Int) % 16 = x % 16 := by
  unfold bits32; omega

theorem bits32_emod_256 (x : Int) : ((bits32 x : Nat) : Int) % 256 = x % 256 := by
  unfold bits32; omega

theorem bits32_emod_4096 (x : Int) : ((bits32 x : Nat) : Int) % 4096 = x % 4096 := by
  unfold bits32; omega

theorem ofBits32_emod_256 (n : Nat) : ofBits32 n % 256 = (n : Int) % 256 := by
  unfold ofBits32; omega

theorem ofBits32_small (n : Nat) (h : n < 2147483648) : ofBits32 n = n := by
  unfold ofBits32; omega

theorem intAnd_0xFF (x : Int) : intAnd x 0xFF = x % 256 := by
  unfold intAnd
  have hb : bits32 0xFF = 255 := by decide
  have h : bits32 x &&& 255 = bits32 x % 256 := Nat.and_pow_two_sub_one_eq_mod _ 8
  rw [hb, h, ofBits32_small _ (by omega)]
  have h2 := bits32_emod_256 x
  omega

theorem intAnd_0xFFF (x : Int) : intAnd x 0xFFF = x % 4096 := by
  unfold intAnd
  have hb : bits32 0xFFF = 4095 := by decide
  have h : bits32 x &&& 4095 = bits32 x % 4096 := Nat.and_pow_two_sub_one_eq_mod _ 12
  rw [hb, h, ofBits32_small _ (by omega)]
  have h2 := bits32_emod_4096 x
  omega

theorem intShr_four (x : Int) : intShr x 4 = x / 16 := by
  unfold intShr
  rw [Int.shiftRight_eq_div_pow]
  norm_num

set_option maxRecDepth 100000 in
theorem land_0xF0_core : ∀ m : Fin 256, m.val &&& 0xF0 = m.val - m.val % 16 := by decide

theorem land_0xF0 (n : Nat) : n &&& 0xF0 = n % 256 - n % 16 := by
  have hc : ((2 ^ 8 - 1) &&& 0xF0 : Nat) = 0xF0 := by decide
  have h1 : n &&& 0xF0 = (n &&& (2 ^ 8 - 1)) &&& 0xF0 := by
    rw [Nat.and_assoc, hc]
  rw [h1, Nat.and_pow_two_sub_one_eq_mod]
  have h2 := land_0xF0_core ⟨n % 2 ^ 8, by omega⟩
  simp only [] at h2
  omega

theorem intAnd_shl_0xF0 (x : Int) : intAnd (intShl x 4) 0xF0 = x % 16 * 16 := by
  unfold intAnd intShl
  have hb : bits32 0xF0 = 0xF0 := by decide
  rw [hb, land_0xF0, Nat.shiftLeft_eq]
  have h1 := bits32_emod_256 (ofBits32 (bits32 x * 2 ^ 4))
  have h2 := ofBits32_emod_256 (bits32 x * 2 ^ 4)
  have h3 := bits32_emod_16 x
  rw [ofBits32_small _ (by omega)]
  omega

/-! ## Auxiliary facts: the simulator's packing -/

theorem toU8_val (x : Int) : ((toU8 x).val : Int) = x % 256 := by
  unfold toU8
  show (((x % 256).toNat : Nat) : Int) = x % 256
  omega

/-- The two bytes computed without the mask, as arithmetic. -/
theorem packUnmasked_val (v : Int) :
    (((SimulatedI2C.packUnmasked v).1.val : Nat) : Int) = v / 16 % 256 ∧
      (((SimulatedI2C.packUnmasked v).2.val : Nat) : Int) = v % 16 * 16 := by
  unfold SimulatedI2C.packUnmasked
  simp only [toU8_val, intShr_four, intAnd_0xFF, intAnd_shl_0xF0]
  omega

/-- The two bytes `SimulatedI2C::read` stores, as arithmetic. -/
theorem pack_val (v : Int) :
    (((SimulatedI2C.pack v).1.val : Nat) : Int) = v / 16 % 256 ∧
      (((SimulatedI2C.pack v).2.val : Nat) : Int) = v % 16 * 16 := by
  unfold SimulatedI2C.pack
  by_cases hneg : v < 0
  · have hm : toInt16 (intAnd v 0xFFF) = v % 4096 := by
      rw [intAnd_0xFFF]
      unfold toInt16
      omega
    simp only [hneg, if_true, hm, toU8_val, intShr_four, intAnd_0xFF, intAnd_shl_0xF0]
    omega
  · simp only [hneg, if_false, toU8_val, intShr_four, intAnd_0xFF, intAnd_shl_0xF0]
    omega

theorem toInt16_of_fits (x : Int) (hlo : -32768 ≤ x) (hhi : x ≤ 32767) : toInt16 x = x := by
  unfold toInt16
  omega

/-- The driver decodes the bytes packed for `v` back to `v`, for every `v`
in the 12-bit signed range. -/
theorem rawValue_pack (v : Int) (hlo : -2048 ≤ v) (hhi : v ≤ 2047) :
    TMP102Driver.rawValue (SimulatedI2C.pack v).1 (SimulatedI2C.pack v).2 = v := by
  obtain ⟨h0, h1⟩ := pack_val v
  rw [rawValue_eq]
  unfold signExtend12
  have e : (((SimulatedI2C.pack v).2.val / 16 : Nat) : Int)
      = (((SimulatedI2C.pack v).2.val : Nat) : Int) / 16 := by
    push_cast
    rfl
  rw [e, h0, h1]
  split_ifs <;> omega

/-! ## Auxiliary facts: reassembly and sign extension -/

theorem bits32_of_nat (n : Nat) (h : n < 4294967296) : bits32 (n : Int) = n := by
  unfold bits32
  omega

theorem rawValue_eq_signExtend (d0 d1 : U8) :
    TMP102Driver.rawValue d0 d1
      = TMP102Driver.signExtend
          (toInt16 (intOr (intShl (d0.val : Int) 4) (intShr (d1.val : Int) 4))) := rfl

/-- The reassembled value `(data[0] << 4) | (data[1] >> 4)`, as arithmetic. -/
theorem reassemble_eq (d0 d1 : U8) :
    intOr (intShl (d0.val : Int) 4) (intShr (d1.val : Int) 4)
      = (d0.val : Int) * 16 + ((d1.val / 16 : Nat) : Int) := by
  have h0 := d0.isLt
  have h1 := d1.isLt
  have hshl : intShl (d0.val : Int) 4 = ((d0.val * 16 : Nat) : Int) := by
    unfold intShl
    rw [bits32_of_nat _ (by omega), Nat.shiftLeft_eq, ofBits32_small _ (by omega)]
  rw [hshl, intShr_natCast]
  unfold intOr
  rw [bits32_of_nat _ (by omega), bits32_of_nat _ (by omega)]
  have hor : d0.val * 16 ||| d1.val / 2 ^ 4 = 2 ^ 4 * d0.val + d1.val / 2 ^ 4 := by
    have hlt : d1.val / 2 ^ 4 < 2 ^ 4 := by omega
    rw [Nat.mul_comm]
    exact (Nat.mul_add_lt_is_or hlt d0.val).symm
  rw [hor, ofBits32_small _ (by omega)]
  push_cast
  omega

/-- The test `raw & 0x800` and the assignment `raw |= 0xF000`, as arithmetic,
on a 12-bit value. -/
theorem signExtend_steps (raw12 : Nat) (h : raw12 < 4096) :
    intAnd (raw12 : Int) 0x800 = (if raw12.testBit 11 then 2048 else 0) ∧
      (raw12.testBit 11 = true ↔ 2048 ≤ raw12) ∧
      toInt16 (intOr (raw12 : Int) 0xF000) = (raw12 : Int) - 4096 := by
  refine ⟨?_, ?_, ?_⟩
  · unfold intAnd
    have hb : bits32 0x800 = 2 ^ 11 := by decide
    rw [bits32_of_nat _ (by omega), hb, Nat.and_two_pow]
    cases raw12.testBit 11 <;> simp [ofBits32]
  · rw [Nat.testBit_to_div_mod]
    simp only [decide_eq_true_eq]
    omega
  · unfold intOr
    have hb : bits32 0xF000 = 2 ^ 12 * 15 := by decide
    have hlt : raw12 < 2 ^ 12 := by omega
    rw [bits32_of_nat _ (by omega), hb, Nat.lor_comm,
      ← Nat.mul_add_lt_is_or hlt 15, ofBits32_small _ (by omega)]
    unfold toInt16
    push_cast
    omega

/-! ## The claims, continued -/

/-- C11. The two sign-extension formulations agree: for a 12-bit value
`raw12` with bit 11 set, the test `raw & 0x800` succeeds and `raw | 0xF000`
read as an `int16_t` is `raw12 - 4096`, which is what the code's sign
extension returns; with bit 11 clear the value is left equal to `raw12`; in
both cases the result is `signExtend12 raw12`. -/
theorem C11_sign_extension_agree (raw12 : Nat) (h : raw12 < 4096) :
    (raw12.testBit 11 = true →
      intAnd (raw12 : Int) 0x800 ≠ 0 ∧
      toInt16 (intOr (raw12 : Int) 0xF000) = (raw12 : Int) - 4096 ∧
      TMP102Driver.signExtend (raw12 : Int) = (raw12 : Int) - 4096) ∧
    (raw12.testBit 11 = false → TMP102Driver.signExtend (raw12 : Int) = (raw12 : Int)) ∧
    TMP102Driver.signExtend (raw12 : Int) = signExtend12 (raw12 : Int) := by
  obtain ⟨hand, hbit, hor⟩ := signExtend_steps raw12 h
  unfold TMP102Driver.signExtend signExtend12
  rw [hand, hor]
  cases hb : raw12.testBit 11
  · have hlt : ¬ 2048 ≤ raw12 := fun hge => by
      have := hbit.mpr hge
      simp [hb] at this
    refine ⟨fun hf => by simp at hf, fun _ => by simp, ?_⟩
    have hlt2 : (raw12 : Int) < 2048 := by omega
    simp [hlt2]
  · have hge : 2048 ≤ raw12 := hbit.mp hb
    refine ⟨fun _ => ⟨by simp, rfl, by simp⟩, fun hf => by simp at hf, ?_⟩
    have hge2 : ¬ (raw12 : Int) < 2048 := by omega
    simp [hge2]

/-- C11, at `raw12 = 0x800`, whose bit 11 is set: the sign extension is
`0x800 - 4096`. -/
theorem C11_sign_extension_agree_witness :
    intAnd ((0x800 : Nat) : Int) 0x800 ≠ 0 ∧
      toInt16 (intOr ((0x800 : Nat) : Int) 0xF000) = ((0x800 : Nat) : Int) - 4096 ∧
      TMP102Driver.signExtend ((0x800 : Nat) : Int) = ((0x800 : Nat) : Int) - 4096 :=
  (C11_sign_extension_agree 0x800 (by decide)).1 (by decide)

theorem SimulatedI2C.read_temperature_register (sim : SimulatedI2C) (address : U8)
    (data : Nat → U8) :
    SimulatedI2C.read sim address 0x00 data 2
      = (true,
          Function.update
            (Function.update data 0 (SimulatedI2C.pack (toInt16 (sim.draws 0).val)).1) 1
            (SimulatedI2C.pack (toInt16 (sim.draws 0).val)).2,
          ⟨fun n => sim.draws (n + 1)⟩) := rfl

/-- The temperature the driver reads from the simulator, exactly. -/
theorem readTemperature_simulated (self : TMP102Driver) (sim : SimulatedI2C)
    (temperature : CFloat) (data : Nat → U8) :
    TMP102Driver.readTemperature SimulatedI2C.interface self sim temperature data
      = (true, (((sim.draws 0).val : Int) : ℚ) / 16, ⟨fun n => sim.draws (n + 1)⟩) := by
  have hv := (sim.draws 0).property
  have hread : SimulatedI2C.interface.read sim self.address_ 0x00 data 2
      = SimulatedI2C.read sim self.address_ 0x00 data 2 := rfl
  have hok : (SimulatedI2C.interface.read sim self.address_ 0x00 data 2).1 = true := rfl
  rw [readTemperature_of_ok SimulatedI2C.interface self sim temperature data hok, hread,
    SimulatedI2C.read_temperature_register, decode_eq]
  have h0 : Function.update
      (Function.update data 0 (SimulatedI2C.pack (toInt16 (sim.draws 0).val)).1) 1
      (SimulatedI2C.pack (toInt16 (sim.draws 0).val)).2 0
        = (SimulatedI2C.pack (toInt16 (sim.draws 0).val)).1 := by
    simp [Function.update]
  have h1 : Function.update
      (Function.update data 0 (SimulatedI2C.pack (toInt16 (sim.draws 0).val)).1) 1
      (SimulatedI2C.pack (toInt16 (sim.draws 0).val)).2 1
        = (SimulatedI2C.pack (toInt16 (sim.draws 0).val)).2 := by
    simp [Function.update]
  simp only [h0, h1]
  rw [toInt16_of_fits _ (by omega) (by omega), rawValue_pack _ (by omega) (by omega)]

/-- C12. End to end over the simulated transport: whatever value `v` in
`[-640, 2000]` the simulator draws, `readTemperature` returns `true` with the
temperature exactly `v * 0.0625`, which lies in `[-40.0, 125.0]`; the draw
`-640` reads as `-40.0` and the draw `2000` as `125.0`. -/
theorem C12_end_to_end_simulated (self : TMP102Driver) (sim : SimulatedI2C)
    (temperature : CFloat) (data : Nat → U8) :
    TMP102Driver.readTemperature SimulatedI2C.interface self sim temperature data
        = (true, (((sim.draws 0).val : Int) : ℚ) * 0.0625, ⟨fun n => sim.draws (n + 1)⟩) ∧
      (-40.0 : ℚ) ≤
        ( TMP102Driver.readTemperature SimulatedI2C.interface self sim temperature data).2.1 ∧
      ( TMP102Driver.readTemperature SimulatedI2C.interface self sim temperature data).2.1
        ≤ (125.0 : ℚ) ∧
      ((sim.draws 0).val = -640 →
        ( TMP102Driver.readTemperature SimulatedI2C.interface self sim temperature data).2.1
          = -40.0) ∧
      ((sim.draws 0).val = 2000 →
        ( TMP102Driver.readTemperature SimulatedI2C.interface self sim temperature data).2.1
          = 125.0) := by
  have hv := (sim.draws 0).property
  have hlo : ((-640 : Int) : ℚ) ≤ (((sim.draws 0).val : Int) : ℚ) := by exact_mod_cast hv.1
  have hhi : (((sim.draws 0).val : Int) : ℚ) ≤ ((2000 : Int) : ℚ) := by exact_mod_cast hv.2
  rw [readTemperature_simulated]
  refine ⟨?_, ?_, ?_, ?_, ?_⟩
  · congr 2
    norm_num
    ring
  · show (-40.0 : ℚ) ≤ (((sim.draws 0).val : Int) : ℚ) / 16
    norm_num at hlo ⊢
    linarith
  · show (((sim.draws 0).val : Int) : ℚ) / 16 ≤ (125.0 : ℚ)
    norm_num at hhi ⊢
    linarith
  · intro h
    show (((sim.draws 0).val : Int) : ℚ) / 16 = -40.0
    rw [h]
    norm_num
  · intro h
    show (((sim.draws 0).val : Int) : ℚ) / 16 = 125.0
    rw [h]
    norm_num

/-- C12, at the two ends of the simulator's range: the draw `-640` reads as
`-40.0` and the draw `2000` as `125.0`. -/
theorem C12_end_to_end_simulated_witness :
    ( TMP102Driver.readTemperature SimulatedI2C.interface ⟨0x48⟩
        ⟨fun _ => ⟨-640, by decide⟩⟩ 0 (fun _ => 0)).2.1 = -40.0 ∧
    ( TMP102Driver.readTemperature SimulatedI2C.interface ⟨0x48⟩
        ⟨fun _ => ⟨2000, by decide⟩⟩ 0 (fun _ => 0)).2.1 = 125.0 :=
  ⟨(C12_end_to_end_simulated ⟨0x48⟩ ⟨fun _ => ⟨-640, by decide⟩⟩ 0 (fun _ => 0)).2.2.2.1 rfl,
    (C12_end_to_end_simulated ⟨0x48⟩ ⟨fun _ => ⟨2000, by decide⟩⟩ 0 (fun _ => 0)).2.2.2.2 rfl⟩

/-- C13. The 12-bit masking step of `SimulatedI2C::read` is redundant: for
every value `v` (so for every `int16_t` value, and every `v` in
`[-640, 2000]`), the two bytes the code stores, computed after masking a
negative `v` with `0xFFF`, are the two bytes `((v >> 4) & 0xFF, (v << 4) & 0xF0)`
computed from `v` without the mask. -/
theorem C13_mask_redundant (v : Int) :
    SimulatedI2C.pack v = SimulatedI2C.packUnmasked v := by
  obtain ⟨h0, h1⟩ := pack_val v
  obtain ⟨u0, u1⟩ := packUnmasked_val v
  apply Prod.ext
  · apply Fin.ext
    omega
  · apply Fin.ext
    omega

/-- C14. Every register image a successful `SimulatedI2C::read` produces obeys
the wire format: the low nibble of `data[1]` is zero and
`data[0] * 16 + data[1] / 16` is the drawn value modulo 4096, its 12-bit
two's-complement encoding. -/
theorem C14_simulated_wire_format (sim : SimulatedI2C) (address reg : U8) (data : Nat → U8)
    (length : Nat) (hok : (SimulatedI2C.read sim address reg data length).1 = true) :
    ((SimulatedI2C.read sim address reg data length).2.1 1).val &&& 0x0F = 0 ∧
      ((((SimulatedI2C.read sim address reg data length).2.1 0).val : Nat) : Int) * 16
          + ((((SimulatedI2C.read sim address reg data length).2.1 1).val / 16 : Nat) : Int)
        = (sim.draws 0).val % 4096 := by
  have hv := (sim.draws 0).property
  have hreg : reg = 0x00 ∧ length = 2 := by
    by_contra hne
    simp [SimulatedI2C.read, hne] at hok
  obtain ⟨rfl, rfl⟩ := hreg
  rw [SimulatedI2C.read_temperature_register]
  have h0 : Function.update
      (Function.update data 0 (SimulatedI2C.pack (toInt16 (sim.draws 0).val)).1) 1
      (SimulatedI2C.pack (toInt16 (sim.draws 0).val)).2 0
        = (SimulatedI2C.pack (toInt16 (sim.draws 0).val)).1 := by
    simp [Function.update]
  have h1 : Function.update
      (Function.update data 0 (SimulatedI2C.pack (toInt16 (sim.draws 0).val)).1) 1
      (SimulatedI2C.pack (toInt16 (sim.draws 0).val)).2 1
        = (SimulatedI2C.pack (toInt16 (sim.draws 0).val)).2 := by
    simp [Function.update]
  simp only [h0, h1]
  rw [toInt16_of_fits _ (by omega) (by omega)]
  obtain ⟨p0, p1⟩ := pack_val (sim.draws 0).val
  have hand : (SimulatedI2C.pack (sim.draws 0).val).2.val &&& 0x0F
      = (SimulatedI2C.pack (sim.draws 0).val).2.val % 16 :=
    Nat.and_pow_two_sub_one_eq_mod _ 4
  refine ⟨?_, ?_⟩
  · rw [hand]
    omega
  · omega

/-- C14, at a simulator whose next draw is `-640`: the image is `0xD8`,
`0x00`, and `0xD8 * 16 + 0` is `-640` modulo 4096. -/
theorem C14_simulated_wire_format_witness :
    ((SimulatedI2C.read ⟨fun _ => ⟨-640, by decide⟩⟩ 0x48 0x00 (fun _ => 0xFF) 2).2.1 1).val
        &&& 0x0F = 0 ∧
      ((((SimulatedI2C.read ⟨fun _ => ⟨-640, by decide⟩⟩ 0x48 0x00
            (fun _ => 0xFF) 2).2.1 0).val : Nat) : Int) * 16
          + ((((SimulatedI2C.read ⟨fun _ => ⟨-640, by decide⟩⟩ 0x48 0x00
            (fun _ => 0xFF) 2).2.1 1).val / 16 : Nat) : Int)
        = (-640 : Int) % 4096 :=
  C14_simulated_wire_format ⟨fun _ => ⟨-640, by decide⟩⟩ 0x48 0x00 (fun _ => 0xFF) 2 rfl

/-! ## Auxiliary facts: the calls of a driver's lifetime -/

theorem readTemperature_recording_state {σ : Type} (i2c : I2CInterface σ) (self : TMP102Driver)
    (bus : σ) (log : List BusCall) (temperature : CFloat) (data : Nat → U8) :
    ( TMP102Driver.readTemperature (recording i2c) self (bus, log) temperature data).2.2
      = ((i2c.read bus self.address_ 0x00 data 2).2.2,
          log ++ [BusCall.read self.address_ 0x00 2]) := by
  cases hr : (i2c.read bus self.address_ 0x00 data 2).1
  · have hrec : ((recording i2c).read (bus, log) self.address_ 0x00 data 2).1 = false := hr
    rw [readTemperature_of_fail (recording i2c) self (bus, log) temperature data hrec]
    rfl
  · have hrec : ((recording i2c).read (bus, log) self.address_ 0x00 data 2).1 = true := hr
    rw [readTemperature_of_ok (recording i2c) self (bus, log) temperature data hrec]
    rfl

/-- The calls a sequence of method calls adds to the log are one for each
method call, each at the driver's address. -/
theorem calls_recording_addresses {σ : Type} (i2c : I2CInterface σ) (self : TMP102Driver)
    (ops : List DriverCall) :
    ∀ (bus : σ) (log : List BusCall),
      ( TMP102Driver.calls (recording i2c) self ops (bus, log)).2.map BusCall.address
        = log.map BusCall.address ++ List.replicate ops.length self.address_ := by
  induction ops with
  | nil =>
    intro bus log
    simp [TMP102Driver.calls]
  | cons op rest ih =>
    intro bus log
    cases op with
    | init =>
      have hstep : TMP102Driver.initialize (recording i2c) self (bus, log)
          = ((i2c.write bus self.address_ 0x01 [0x60, 0xA0] 2).1,
              ((i2c.write bus self.address_ 0x01 [0x60, 0xA0] 2).2,
                log ++ [BusCall.write self.address_ 0x01 [0x60, 0xA0] 2])) := rfl
      simp only [TMP102Driver.calls, hstep, ih, List.map_append, List.map_cons, List.map_nil,
        BusCall.address, List.length_cons, List.replicate_succ, List.append_assoc,
        List.singleton_append]
    | readTemp temperature data =>
      simp only [TMP102Driver.calls, readTemperature_recording_state, ih, List.map_append,
        List.map_cons, List.map_nil, BusCall.address, List.length_cons, List.replicate_succ,
        List.append_assoc, List.singleton_append]

theorem mainLoop_lines (sensor : TMP102Driver) (junk : List (CFloat × (Nat → U8))) :
    ∀ sim : SimulatedI2C,
      ConsoleLine.error ∉ mainLoop sensor sim junk ∧
        (mainLoop sensor sim junk).length = junk.length := by
  induction junk with
  | nil =>
    intro sim
    simp [mainLoop]
  | cons j rest ih =>
    intro sim
    obtain ⟨temp, data⟩ := j
    have hr := readTemperature_simulated sensor sim temp data
    simp only [mainLoop, hr, if_true, List.mem_cons, List.length_cons]
    obtain ⟨h1, h2⟩ := ih ⟨fun n => sim.draws (n + 1)⟩
    refine ⟨?_, by rw [h2]⟩
    rintro (h | h)
    · cases h
    · exact h1 h

/-- The decoded temperatures of two buffers are equal exactly when the
buffers agree on byte 0 and on the high nibble of byte 1. -/
theorem decode_eq_iff (data data' : Nat → U8) :
    TMP102Driver.decode data = TMP102Driver.decode data' ↔
      (data 0 = data' 0 ∧ (data 1).val >>> 4 = (data' 1).val >>> 4) := by
  rw [decode_eq, decode_eq, rawValue_eq, rawValue_eq, Nat.shiftRight_eq_div_pow,
    Nat.shiftRight_eq_div_pow]
  have h0 := (data 0).isLt
  have h1 := (data 1).isLt
  have h0' := (data' 0).isLt
  have h1' := (data' 1).isLt
  constructor
  · intro h
    have h16 : (16 : ℚ) ≠ 0 := by norm_num
    have hint := Int.cast_injective ((div_left_inj' h16).mp h)
    unfold signExtend12 at hint
    have hsplit : ((data 0).val : Int) = ((data' 0).val : Int) ∧
        (((data 1).val / 16 : Nat) : Int) = (((data' 1).val / 16 : Nat) : Int) := by
      split_ifs at hint <;> omega
    refine ⟨Fin.ext (by omega), ?_⟩
    have := hsplit.2
    norm_num
    omega
  · rintro ⟨e0, e1⟩
    have e1' : (data 1).val / 16 = (data' 1).val / 16 := by
      norm_num at e1
      exact e1
    rw [e0, e1']

/-- C15, as stated, fails: a driver constructed at the address 200 passes 200
to its initialization write and to its read, and 200 is not below 128. -/
theorem C15_address_seven_bit_counterexample :
    ( TMP102Driver.lifetime (recording (fixtureI2C true 0 0)) ((), []) 200
        [DriverCall.readTemp 0 (fun _ => 0)]).2
      = [BusCall.write 200 0x01 [0x60, 0xA0] 2, BusCall.read 200 0x00 2] ∧
    ¬ ((200 : U8).val < 128) :=
  ⟨rfl, by decide⟩

/-- C15, amended. The device address is an 8-bit unsigned value fixed at
construction: over the lifetime of a driver constructed at `address`, the
construction and every later method call make exactly one transport call
each, and every one of these calls is passed `address`, a value below 256. -/
theorem C15_address_fixed {σ : Type} (i2c : I2CInterface σ) (bus : σ) (address : U8)
    (ops : List DriverCall) :
    ( TMP102Driver.lifetime (recording i2c) (bus, []) address ops).2.map BusCall.address
        = List.replicate (ops.length + 1) address ∧
      ( TMP102Driver.new i2c bus address).1.address_ = address ∧
      address.val < 256 := by
  refine ⟨?_, rfl, address.isLt⟩
  have hnew : TMP102Driver.new (recording i2c) (bus, []) address
      = (⟨address⟩, ((i2c.write bus address 0x01 [0x60, 0xA0] 2).2,
          [] ++ [BusCall.write address 0x01 [0x60, 0xA0] 2])) := rfl
  unfold TMP102Driver.lifetime
  rw [hnew, calls_recording_addresses]
  simp [BusCall.address, List.replicate_succ]

/-- C16. For every pair of bytes a successful read delivers, the value
`(b0 << 4) | (b1 >> 4)` lies in `[0, 4095]` and is unchanged by its
conversion to `int16_t`; the sign-extended value is the driver's `raw` and
lies in `[-2048, 2047]`; and the returned temperature is that integer divided
by 16, that is the integer times `0.0625`, within `[-128.0, 127.9375]`. -/
theorem C16_decode_range {σ : Type} (i2c : I2CInterface σ) (self : TMP102Driver) (bus : σ)
    (temperature : CFloat) (data : Nat → U8) (b0 b1 : U8)
    (hok : (i2c.read bus self.address_ 0x00 data 2).1 = true)
    (h0 : (i2c.read bus self.address_ 0x00 data 2).2.1 0 = b0)
    (h1 : (i2c.read bus self.address_ 0x00 data 2).2.1 1 = b1) :
    (0 ≤ intOr (intShl (b0.val : Int) 4) (intShr (b1.val : Int) 4) ∧
      intOr (intShl (b0.val : Int) 4) (intShr (b1.val : Int) 4) ≤ 4095 ∧
      toInt16 (intOr (intShl (b0.val : Int) 4) (intShr (b1.val : Int) 4))
        = intOr (intShl (b0.val : Int) 4) (intShr (b1.val : Int) 4)) ∧
    (TMP102Driver.rawValue b0 b1
        = TMP102Driver.signExtend (intOr (intShl (b0.val : Int) 4) (intShr (b1.val : Int) 4)) ∧
      -2048 ≤ TMP102Driver.rawValue b0 b1 ∧ TMP102Driver.rawValue b0 b1 ≤ 2047) ∧
    (TMP102Driver.readTemperature i2c self bus temperature data
        = (true, ((TMP102Driver.rawValue b0 b1 : Int) : ℚ) / 16,
            (i2c.read bus self.address_ 0x00 data 2).2.2) ∧
      ((TMP102Driver.rawValue b0 b1 : Int) : ℚ) / 16
        = ((TMP102Driver.rawValue b0 b1 : Int) : ℚ) * 0.0625 ∧
      (-128.0 : ℚ) ≤ ((TMP102Driver.rawValue b0 b1 : Int) : ℚ) / 16 ∧
      ((TMP102Driver.rawValue b0 b1 : Int) : ℚ) / 16 ≤ (127.9375 : ℚ)) := by
  have hb0 := b0.isLt
  have hb1 := b1.isLt
  have hre := reassemble_eq b0 b1
  have hfit : toInt16 (intOr (intShl (b0.val : Int) 4) (intShr (b1.val : Int) 4))
      = intOr (intShl (b0.val : Int) 4) (intShr (b1.val : Int) 4) := by
    rw [hre]
    exact toInt16_of_fits _ (by omega) (by omega)
  obtain ⟨hlo, hhi⟩ := rawValue_bounds b0 b1
  have hloq : ((-2048 : Int) : ℚ) ≤ ((TMP102Driver.rawValue b0 b1 : Int) : ℚ) := by
    exact_mod_cast hlo
  have hhiq : ((TMP102Driver.rawValue b0 b1 : Int) : ℚ) ≤ ((2047 : Int) : ℚ) := by
    exact_mod_cast hhi
  refine ⟨⟨?_, ?_, hfit⟩, ⟨?_, hlo, hhi⟩, ?_, ?_, ?_, ?_⟩
  · rw [hre]; omega
  · rw [hre]; omega
  · rw [rawValue_eq_signExtend, hfit]
  · rw [readTemperature_of_ok i2c self bus temperature data hok, decode_eq, h0, h1]
  · norm_num
    ring
  · norm_num at hloq ⊢
    linarith
  · norm_num at hhiq ⊢
    linarith

/-- C16, at the bytes `0xFF`, `0xFF`, whose low nibble is not zero: the
reading is the decoded integer over 16. -/
theorem C16_decode_range_witness :
    TMP102Driver.readTemperature (fixtureI2C true 0xFF 0xFF) ⟨0x48⟩ () 0 (fun _ => 0)
      = (true, ((TMP102Driver.rawValue 0xFF 0xFF : Int) : ℚ) / 16, ()) :=
  (C16_decode_range (fixtureI2C true 0xFF 0xFF) ⟨0x48⟩ () 0 (fun _ => 0) 0xFF 0xFF
    rfl rfl rfl).2.2.1

/-- C17. The decode depends on exactly the top 12 bits of the image: the
temperatures of two successful reads are equal if and only if the reads agree
on byte 0 and on the high nibble of byte 1. -/
theorem C17_decode_top_twelve_bits {σ τ : Type} (i2c₁ : I2CInterface σ)
    (i2c₂ : I2CInterface τ) (self₁ self₂ : TMP102Driver) (bus₁ : σ) (bus₂ : τ)
    (temperature₁ temperature₂ : CFloat) (data₁ data₂ : Nat → U8)
    (hok₁ : (i2c₁.read bus₁ self₁.address_ 0x00 data₁ 2).1 = true)
    (hok₂ : (i2c₂.read bus₂ self₂.address_ 0x00 data₂ 2).1 = true) :
    ( TMP102Driver.readTemperature i2c₁ self₁ bus₁ temperature₁ data₁).2.1
        = ( TMP102Driver.readTemperature i2c₂ self₂ bus₂ temperature₂ data₂).2.1 ↔
      ((i2c₁.read bus₁ self₁.address_ 0x00 data₁ 2).2.1 0
          = (i2c₂.read bus₂ self₂.address_ 0x00 data₂ 2).2.1 0 ∧
        ((i2c₁.read bus₁ self₁.address_ 0x00 data₁ 2).2.1 1).val >>> 4
          = ((i2c₂.read bus₂ self₂.address_ 0x00 data₂ 2).2.1 1).val >>> 4) := by
  rw [readTemperature_of_ok i2c₁ self₁ bus₁ temperature₁ data₁ hok₁,
    readTemperature_of_ok i2c₂ self₂ bus₂ temperature₂ data₂ hok₂]
  exact decode_eq_iff _ _

/-- C17, at the images `0x19, 0x0F` and `0x19, 0x00`, which differ in the
reserved low nibble only: the two temperatures are equal. -/
theorem C17_decode_top_twelve_bits_witness :
    ( TMP102Driver.readTemperature (fixtureI2C true 0x19 0x0F) ⟨0x48⟩ () 0 (fun _ => 0)).2.1
      = ( TMP102Driver.readTemperature (fixtureI2C true 0x19 0x00) ⟨0x48⟩ () 0
          (fun _ => 0)).2.1 :=
  (C17_decode_top_twelve_bits (fixtureI2C true 0x19 0x0F) (fixtureI2C true 0x19 0x00)
    ⟨0x48⟩ ⟨0x48⟩ () () 0 0 (fun _ => 0) (fun _ => 0) rfl rfl).mpr ⟨rfl, by decide⟩

/-- C18. Over the simulated transport the driver never fails: for every
device address and every state of the simulator, `initialize` returns `true`
and `readTemperature` returns `true`; and `main`, run for any number of
iterations of its loop, prints the banner and one reading per iteration,
never the error line. -/
theorem C18_simulated_never_fails (address : U8) (sim : SimulatedI2C) :
    ( TMP102Driver.initialize SimulatedI2C.interface ⟨address⟩ sim).1 = true ∧
    (∀ (temperature : CFloat) (data : Nat → U8),
      ( TMP102Driver.readTemperature SimulatedI2C.interface ⟨address⟩ sim
          temperature data).1 = true) ∧
    (∀ junk : List (CFloat × (Nat → U8)),
      ConsoleLine.error ∉ Program.main sim junk ∧
        (Program.main sim junk).length = junk.length + 1) := by
  refine ⟨rfl, fun temperature data => ?_, fun junk => ?_⟩
  · rw [readTemperature_simulated]
  · obtain ⟨h1, h2⟩ := mainLoop_lines
      ( TMP102Driver.newDefault SimulatedI2C.interface sim).1 junk
      ( TMP102Driver.newDefault SimulatedI2C.interface sim).2
    unfold Program.main
    refine ⟨?_, by simp [h2]⟩
    intro h
    rcases List.mem_cons.mp h with h | h
    · cases h
    · exact h1 h
